import Mathlib

/-!
Shallow embedding of `src/backend/src/main.rs` (the author-comparison
pipeline): feature extraction, cosine vocabulary similarity, aspect
comparison, confidence aggregation and the decision rule.

Floating-point numbers (`f64`) are modelled by the type `F` below: a value is
not-a-number, an infinity, or an exact real.  Arithmetic is exact (rounding is
abstracted away); the propagation of the special values follows IEEE-754 and
the Rust `f64` operations used by the source (`min`/`max` return the other
operand when one argument is NaN, comparisons with NaN are false, division of
zero by zero is NaN).  The external tokenizer is not part of the repository's
code: its output, the token list, is a parameter of the embedded functions.
-/

namespace AuthorComparer

/-- Model of a Rust `f64` value: not-a-number, positive or negative infinity,
or a finite real number (exact arithmetic, rounding abstracted away). -/
inductive F where
  | nan : F
  | inf : F
  | ninf : F
  | fin : ℝ → F

namespace F

/-- IEEE addition: NaN absorbs, opposite infinities give NaN. -/
noncomputable def add : F → F → F
  | nan, _ => nan
  | _, nan => nan
  | inf, ninf => nan
  | ninf, inf => nan
  | inf, _ => inf
  | _, inf => inf
  | ninf, _ => ninf
  | _, ninf => ninf
  | fin a, fin b => fin (a + b)

/-- IEEE subtraction. -/
noncomputable def sub : F → F → F
  | nan, _ => nan
  | _, nan => nan
  | inf, inf => nan
  | ninf, ninf => nan
  | inf, _ => inf
  | ninf, _ => ninf
  | _, inf => ninf
  | _, ninf => inf
  | fin a, fin b => fin (a - b)

/-- IEEE multiplication: NaN absorbs, zero times infinity is NaN. -/
noncomputable def mul : F → F → F
  | nan, _ => nan
  | _, nan => nan
  | inf, inf => inf
  | inf, ninf => ninf
  | ninf, inf => ninf
  | ninf, ninf => inf
  | inf, fin b => if b = 0 then nan else if 0 < b then inf else ninf
  | fin a, inf => if a = 0 then nan else if 0 < a then inf else ninf
  | ninf, fin b => if b = 0 then nan else if 0 < b then ninf else inf
  | fin a, ninf => if a = 0 then nan else if 0 < a then ninf else inf
  | fin a, fin b => fin (a * b)

/-- IEEE division: 0/0 and inf/inf are NaN, finite/0 is a signed infinity,
finite/inf is 0 (the sign of zero is not modelled). -/
noncomputable def div : F → F → F
  | nan, _ => nan
  | _, nan => nan
  | inf, inf => nan
  | inf, ninf => nan
  | ninf, inf => nan
  | ninf, ninf => nan
  | inf, fin b => if 0 ≤ b then inf else ninf
  | ninf, fin b => if 0 ≤ b then ninf else inf
  | fin _, inf => fin 0
  | fin _, ninf => fin 0
  | fin a, fin b =>
      if b = 0 then (if a = 0 then nan else if 0 < a then inf else ninf)
      else fin (a / b)

/-- Rust `f64::min`: when one argument is NaN the other is returned. -/
noncomputable def fmin : F → F → F
  | nan, b => b
  | a, nan => a
  | ninf, _ => ninf
  | _, ninf => ninf
  | inf, b => b
  | a, inf => a
  | fin a, fin b => fin (min a b)

/-- Rust `f64::max`: when one argument is NaN the other is returned. -/
noncomputable def fmax : F → F → F
  | nan, b => b
  | a, nan => a
  | inf, _ => inf
  | _, inf => inf
  | ninf, b => b
  | a, ninf => a
  | fin a, fin b => fin (max a b)

/-- Rust `f64::abs`. -/
noncomputable def fabs : F → F
  | nan => nan
  | inf => inf
  | ninf => inf
  | fin a => fin |a|

/-- Rust `f64::sqrt`: NaN on negative input. -/
noncomputable def fsqrt : F → F
  | nan => nan
  | inf => inf
  | ninf => nan
  | fin a => if a < 0 then nan else fin (Real.sqrt a)

/-- Strict less-than as Rust `<` on `f64` evaluates it: any comparison with
NaN is false. -/
noncomputable def blt : F → F → Bool
  | nan, _ => false
  | _, nan => false
  | ninf, ninf => false
  | ninf, _ => true
  | _, ninf => false
  | inf, _ => false
  | fin _, inf => true
  | fin a, fin b => decide (a < b)

/-- Strict greater-than on `f64`: `a > b` is `b < a`. -/
noncomputable def bgt (a b : F) : Bool := blt b a

/-- Rust `Iterator::sum` for `f64`: a left fold of `+` starting at `0.0`. -/
noncomputable def fsum (l : List F) : F := l.foldl add (fin 0)

/-- nalgebra `DVector::dot`: the sum of the componentwise products. -/
noncomputable def dot (v1 v2 : List F) : F := fsum (List.zipWith mul v1 v2)

/-- nalgebra `DVector::norm`: the square root of the sum of the squares. -/
noncomputable def norm (v : List F) : F := fsqrt (fsum (v.map fun x => mul x x))

end F

/-- A token as the lindera tokenizer yields it: a surface string and the
detail strings (the first detail, when present, is the part of speech). -/
structure Token where
  text : String
  details : Option (List String)

/-- The part of speech read from a token in `extract_features`:
`token.get_details()` and then `details.get(0)`, with `""` when either
is missing. -/
def Token.pos (t : Token) : String :=
  match t.details with
  | some d => d.headD ""
  | none => ""

/-- Rust `char::is_ascii_punctuation`: the four ASCII punctuation ranges. -/
def isAsciiPunct (c : Char) : Bool :=
  (0x21 ≤ c.toNat && c.toNat ≤ 0x2f) || (0x3a ≤ c.toNat && c.toNat ≤ 0x40) ||
    (0x5b ≤ c.toNat && c.toNat ≤ 0x60) || (0x7b ≤ c.toNat && c.toNat ≤ 0x7e)

/-- The punctuation test of `extract_features`:
`word.chars().all(|c| c.is_ascii_punctuation())`. -/
def isPunctWord (w : String) : Bool := w.data.all isAsciiPunct

/-- The `TextFeatures` struct of the source. -/
structure TextFeatures where
  word_frequencies : List (String × F)
  particle_ratio : F
  verb_ratio : F
  adjective_ratio : F
  unique_words_ratio : F
  avg_sentence_length : F
  punctuation_ratio : F

/-- The `DetailedResult` struct of the source. -/
structure DetailedResult where
  aspect : String
  difference : F
  explanation : String

/-- The `Analysis` struct of the source. -/
structure Analysis where
  same_author : Bool
  confidence : F
  detailed_analysis : List DetailedResult

/-- Sentence counting in `extract_features`: split the raw text on `.`, `!`
and `?` and count the pieces that are not empty after trimming whitespace. -/
def sentenceCount (text : String) : Nat :=
  ((text.split fun c => c == '.' || c == '!' || c == '?').filter
    fun s => !s.trim.isEmpty).length

/-- The surfaces of the content tokens (the tokens that are not pure ASCII
punctuation), in order. -/
def contentWords (tokens : List Token) : List String :=
  (tokens.filter fun t => !isPunctWord t.text).map Token.text

/-- The number of pure-punctuation tokens (`punctuation_count`). -/
def punctuationCount (tokens : List Token) : Nat :=
  (tokens.filter fun t => isPunctWord t.text).length

/-- How many tokens carry the given part-of-speech tag.  The source counts
the three tracked tags in the `pos_frequencies` hash map and reads each one
back with `unwrap_or(&0.0)`; the count is the same. -/
def countTag (tokens : List Token) (tag : String) : Nat :=
  (tokens.filter fun t => t.pos == tag).length

/-- The `extract_features` function of the source.  The token list is the
tokenizer's output for `text`.  The word-frequency hash map (each content
word's count, normalized by the content-token count) has an unspecified
iteration order; it is modelled as an association list in first-occurrence
order, which downstream code is insensitive to (the similarity function
sorts the keys). -/
noncomputable def extract_features (text : String) (tokens : List Token) :
    TextFeatures :=
  let total := tokens.length
  let sc := sentenceCount text
  if total < 2 then
    { word_frequencies := []
      particle_ratio := F.fin 0
      verb_ratio := F.fin 0
      adjective_ratio := F.fin 0
      unique_words_ratio := F.fin 0
      avg_sentence_length := F.fin total
      punctuation_ratio := F.fin 0 }
  else
    let ws := contentWords tokens
    let punct := punctuationCount tokens
    let content : ℝ := (total : ℝ) - punct
    { word_frequencies :=
        ws.dedup.map fun w => (w, F.div (F.fin (ws.count w)) (F.fin content))
      particle_ratio :=
        F.fmax (F.div (F.fin (countTag tokens "助詞")) (F.fin content)) (F.fin 0.1)
      verb_ratio :=
        F.fmax (F.div (F.fin (countTag tokens "動詞")) (F.fin content)) (F.fin 0.1)
      adjective_ratio :=
        F.fmax (F.div (F.fin (countTag tokens "形容詞")) (F.fin content)) (F.fin 0.1)
      unique_words_ratio :=
        if 0 < content then F.div (F.fin ws.dedup.length) (F.fin content)
        else F.fin 0
      avg_sentence_length :=
        if 0 < sc then F.div (F.fin content) (F.fin sc) else F.fin content
      punctuation_ratio :=
        if 0 < total then F.div (F.fin punct) (F.fin total) else F.fin 0 }

/-- `freq.get(word).unwrap_or(&0.0)`. -/
def lookupF (m : List (String × F)) (w : String) : F :=
  match m.find? fun p => p.1 == w with
  | some p => p.2
  | none => F.fin 0

/-- The `all_words` list of `calculate_frequency_similarity`: the keys of
both maps concatenated, sorted and deduplicated. -/
def unionKeys (freq1 freq2 : List (String × F)) : List String :=
  ((freq1.map Prod.fst ++ freq2.map Prod.fst).insertionSort (· ≤ ·)).dedup

/-- The `calculate_frequency_similarity` function of the source: cosine
similarity of the two frequency vectors over the sorted, deduplicated union
of the keys. -/
noncomputable def calculate_frequency_similarity
    (freq1 freq2 : List (String × F)) : F :=
  let allWords := unionKeys freq1 freq2
  let vec1 := allWords.map fun w => lookupF freq1 w
  let vec2 := allWords.map fun w => lookupF freq2 w
  F.div (F.dot vec1 vec2) (F.mul (F.norm vec1) (F.norm vec2))

/-- The `compare_features` function of the source: the seven aspect results
in the order the source pushes them. -/
noncomputable def compare_features (features1 features2 : TextFeatures) :
    List DetailedResult :=
  let freq_similarity :=
    calculate_frequency_similarity features1.word_frequencies
      features2.word_frequencies
  let length_ratio :=
    if F.bgt features1.avg_sentence_length features2.avg_sentence_length then
      F.div features2.avg_sentence_length features1.avg_sentence_length
    else
      F.div features1.avg_sentence_length features2.avg_sentence_length
  [{ aspect := "Word Usage"
     difference := F.sub (F.fin 1) freq_similarity
     explanation := "Similarity in word choice and frequency" },
   { aspect := "Sentence Length"
     difference := F.fmin (F.sub (F.fin 1) length_ratio) (F.fin 0.5)
     explanation := "Difference in average sentence length" },
   { aspect := "Particle Usage"
     difference :=
       F.fmin (F.fabs (F.sub features1.particle_ratio features2.particle_ratio))
         (F.fin 0.5)
     explanation := "Difference in particle usage" },
   { aspect := "Verb Usage"
     difference :=
       F.fmin (F.fabs (F.sub features1.verb_ratio features2.verb_ratio))
         (F.fin 0.5)
     explanation := "Difference in verb usage" },
   { aspect := "Adjective Usage"
     difference :=
       F.fmin (F.fabs (F.sub features1.adjective_ratio features2.adjective_ratio))
         (F.fin 0.5)
     explanation := "Difference in adjective usage" },
   { aspect := "Punctuation"
     difference :=
       F.fmin
         (F.fabs (F.sub features1.punctuation_ratio features2.punctuation_ratio))
         (F.fin 0.5)
     explanation := "Difference in punctuation" },
   { aspect := "Vocabulary Richness"
     difference :=
       F.fmin
         (F.fabs (F.sub features1.unique_words_ratio features2.unique_words_ratio))
         (F.fin 0.5)
     explanation := "Difference in vocabulary diversity" }]

/-- The aspect weight table inside `calculate_confidence`. -/
def aspectWeight (aspect : String) : ℝ :=
  if aspect = "Word Usage" then 3
  else if aspect = "Sentence Length" then 1.5
  else if aspect = "Particle Usage" then 1.5
  else if aspect = "Verb Usage" then 1.2
  else if aspect = "Adjective Usage" then 1.2
  else if aspect = "Vocabulary Richness" then 1.5
  else 1

/-- The `clamp` function of the source: `value.min(max).max(min)`. -/
noncomputable def clamp (value mn mx : F) : F := F.fmax (F.fmin value mx) mn

/-- The `calculate_confidence` function of the source. -/
noncomputable def calculate_confidence (details : List DetailedResult) : F :=
  let total_weight : ℝ := details.length
  let weighted_sum :=
    F.fsum (details.map fun d =>
      F.mul (F.sub (F.fin 1) d.difference) (F.fin (aspectWeight d.aspect)))
  let confidence := F.div weighted_sum (F.mul (F.fin total_weight) (F.fin 2))
  clamp confidence (F.fin 0) (F.fin 1)

/-- The body of the `compare_texts` handler after tokenization: features,
detailed analysis, confidence and the `confidence > 0.6` decision. -/
noncomputable def compare_texts (text1 text2 : String)
    (tokens1 tokens2 : List Token) : Analysis :=
  let features1 := extract_features text1 tokens1
  let features2 := extract_features text2 tokens2
  let detailed_analysis := compare_features features1 features2
  let confidence := calculate_confidence detailed_analysis
  let same_author := F.bgt confidence (F.fin 0.6)
  { same_author := same_author
    confidence := confidence
    detailed_analysis := detailed_analysis }

/-- The `compare_texts` handler including the two
`tokenizer.tokenize(text).unwrap()` calls: a tokenizer `Err` makes `unwrap`
panic, so no `Analysis` value is produced at all (`none`), rather than a
typed error value. -/
noncomputable def compare_route (tok1 tok2 : Except String (List Token))
    (text1 text2 : String) : Option Analysis :=
  match tok1, tok2 with
  | Except.ok t1, Except.ok t2 => some (compare_texts text1 text2 t1 t2)
  | _, _ => none

/-- The aspect weight table exactly as the spec lists it, for the refinement
statement about the aggregator. -/
def specAspectWeight (aspect : String) : ℝ :=
  if aspect = "Word Usage" then 3
  else if aspect = "Sentence Length" then 1.5
  else if aspect = "Particle Usage" then 1.5
  else if aspect = "Verb Usage" then 1.2
  else if aspect = "Adjective Usage" then 1.2
  else if aspect = "Vocabulary Richness" then 1.5
  else 1

/-- Confidence aggregation as the spec words it:
`clamp(sum((1 - difference) * weight) / (count(details) * 2.0), 0, 1)`. -/
noncomputable def spec_aggregate (details : List DetailedResult) : F :=
  clamp
    (F.div
      (F.fsum (details.map fun d =>
        F.mul (F.sub (F.fin 1) d.difference) (F.fin (specAspectWeight d.aspect))))
      (F.mul (F.fin (details.length : ℝ)) (F.fin 2)))
    (F.fin 0) (F.fin 1)

/-- The float is a finite real of the unit interval (in particular it is
neither NaN nor infinite). -/
def unitF (x : F) : Prop := ∃ r : ℝ, x = F.fin r ∧ 0 ≤ r ∧ r ≤ 1

/-- The float is a finite nonnegative real. -/
def nonnegF (x : F) : Prop := ∃ r : ℝ, x = F.fin r ∧ 0 ≤ r

/-- The float is a finite real of the interval `[0, 0.5]`. -/
def halfUnitF (x : F) : Prop := ∃ r : ℝ, x = F.fin r ∧ 0 ≤ r ∧ r ≤ 1 / 2

/-- The scalar fields of a feature vector are finite nonnegative reals, as
the spec's data-model invariant provides. -/
def featuresNonneg (f : TextFeatures) : Prop :=
  nonnegF f.particle_ratio ∧ nonnegF f.verb_ratio ∧ nonnegF f.adjective_ratio ∧
    nonnegF f.unique_words_ratio ∧ nonnegF f.avg_sentence_length ∧
    nonnegF f.punctuation_ratio

/-- Sanity property of the tokenizer's output: a token tagged with one of the
three tracked parts of speech is a content token, not pure punctuation. -/
def trackedTagsAreContent (tokens : List Token) : Prop :=
  ∀ t ∈ tokens, (t.pos = "助詞" ∨ t.pos = "動詞" ∨ t.pos = "形容詞") →
    isPunctWord t.text = false

/-- A token sequence in which two pure-punctuation tokens carry the particle
tag next to a single content token. -/
def punctParticleTokens : List Token :=
  [⟨"!", some ["助詞"]⟩, ⟨"?", some ["助詞"]⟩, ⟨"x", some ["名詞"]⟩]

/-- A well-behaved two-token sequence (two distinct nouns), the tokenizer's
output for the text `"ab"`. -/
def abTokens : List Token := [⟨"a", some ["名詞"]⟩, ⟨"b", some ["名詞"]⟩]

/-- A feature vector whose vocabulary is the single word `"a"`. -/
noncomputable def featOnlyA : TextFeatures :=
  ⟨[("a", F.fin 1)], F.fin 0.1, F.fin 0.1, F.fin 0.1, F.fin 1, F.fin 1, F.fin 0⟩

/-- A feature vector whose vocabulary is the single word `"b"`. -/
noncomputable def featOnlyB : TextFeatures :=
  ⟨[("b", F.fin 1)], F.fin 0.1, F.fin 0.1, F.fin 0.1, F.fin 1, F.fin 1, F.fin 0⟩

/-- The aspect list produced when two identical, well-formed feature vectors
are compared: every difference is exactly zero. -/
noncomputable def zeroDetails : List DetailedResult :=
  [⟨"Word Usage", F.fin 0, "Similarity in word choice and frequency"⟩,
   ⟨"Sentence Length", F.fin 0, "Difference in average sentence length"⟩,
   ⟨"Particle Usage", F.fin 0, "Difference in particle usage"⟩,
   ⟨"Verb Usage", F.fin 0, "Difference in verb usage"⟩,
   ⟨"Adjective Usage", F.fin 0, "Difference in adjective usage"⟩,
   ⟨"Punctuation", F.fin 0, "Difference in punctuation"⟩,
   ⟨"Vocabulary Richness", F.fin 0, "Difference in vocabulary diversity"⟩]

namespace F

@[simp] theorem add_nan_left (x : F) : add nan x = nan := by cases x <;> rfl

@[simp] theorem add_nan_right (x : F) : add x nan = nan := by cases x <;> rfl

@[simp] theorem add_fin_fin (a b : ℝ) : add (fin a) (fin b) = fin (a + b) := rfl

@[simp] theorem sub_nan_left (x : F) : sub nan x = nan := by cases x <;> rfl

@[simp] theorem sub_nan_right (x : F) : sub x nan = nan := by cases x <;> rfl

@[simp] theorem sub_fin_fin (a b : ℝ) : sub (fin a) (fin b) = fin (a - b) := rfl

@[simp] theorem mul_nan_left (x : F) : mul nan x = nan := by cases x <;> rfl

@[simp] theorem mul_nan_right (x : F) : mul x nan = nan := by cases x <;> rfl

@[simp] theorem mul_fin_fin (a b : ℝ) : mul (fin a) (fin b) = fin (a * b) := rfl

@[simp] theorem div_nan_left (x : F) : div nan x = nan := by cases x <;> rfl

@[simp] theorem div_nan_right (x : F) : div x nan = nan := by cases x <;> rfl

theorem div_fin_fin (a b : ℝ) (h : b ≠ 0) :
    div (fin a) (fin b) = fin (a / b) := by
  simp [div, h]

@[simp] theorem div_zero_zero : div (fin 0) (fin 0) = nan := by
  simp [div]

@[simp] theorem fmin_nan_left (x : F) : fmin nan x = x := by cases x <;> rfl

@[simp] theorem fmin_nan_right (x : F) : fmin x nan = x := by cases x <;> rfl

@[simp] theorem fmin_fin_fin (a b : ℝ) :
    fmin (fin a) (fin b) = fin (min a b) := rfl

@[simp] theorem fmax_nan_left (x : F) : fmax nan x = x := by cases x <;> rfl

@[simp] theorem fmax_nan_right (x : F) : fmax x nan = x := by cases x <;> rfl

@[simp] theorem fmax_fin_fin (a b : ℝ) :
    fmax (fin a) (fin b) = fin (max a b) := rfl

@[simp] theorem fabs_fin (a : ℝ) : fabs (fin a) = fin |a| := rfl

theorem fsqrt_fin (a : ℝ) (h : 0 ≤ a) :
    fsqrt (fin a) = fin (Real.sqrt a) := by
  simp [fsqrt, not_lt.2 h]

@[simp] theorem blt_fin_fin (a b : ℝ) :
    blt (fin a) (fin b) = decide (a < b) := rfl

@[simp] theorem bgt_fin_fin (a b : ℝ) :
    bgt (fin a) (fin b) = decide (b < a) := rfl

@[simp] theorem fsum_nil : fsum [] = fin 0 := rfl

theorem foldl_add_nan (l : List F) : l.foldl add nan = nan := by
  induction l with
  | nil => rfl
  | cons x l ih => simpa using ih

theorem fsum_nan_head (l : List F) : fsum (nan :: l) = nan := by
  simpa [fsum] using foldl_add_nan l

theorem foldl_add_fin (rs : List ℝ) :
    ∀ a : ℝ, (rs.map fin).foldl add (fin a) = fin (a + rs.sum) := by
  induction rs with
  | nil => simp
  | cons r rs ih => intro a; simp [ih, add_assoc]

theorem fsum_map_fin (rs : List ℝ) : fsum (rs.map fin) = fin rs.sum := by
  simpa [fsum] using foldl_add_fin rs 0

theorem mul_comm_f (a b : F) : mul a b = mul b a := by
  cases a <;> cases b <;> simp [mul, mul_comm]

theorem zipWith_mul_comm (v1 v2 : List F) :
    List.zipWith mul v1 v2 = List.zipWith mul v2 v1 := by
  induction v1 generalizing v2 with
  | nil => cases v2 <;> rfl
  | cons x v1 ih =>
      cases v2 with
      | nil => rfl
      | cons y v2 => simp [ih, mul_comm_f x y]

theorem dot_comm (v1 v2 : List F) : dot v1 v2 = dot v2 v1 := by
  unfold dot
  rw [zipWith_mul_comm]

theorem zipWith_mul_map_fin (rs ss : List ℝ) :
    List.zipWith mul (rs.map fin) (ss.map fin) =
      (List.zipWith (fun a b => a * b) rs ss).map fin := by
  induction rs generalizing ss with
  | nil => simp
  | cons r rs ih =>
      cases ss with
      | nil => simp
      | cons s ss => simp [ih]

theorem dot_map_fin (rs ss : List ℝ) :
    dot (rs.map fin) (ss.map fin) = fin (List.zipWith (fun a b => a * b) rs ss).sum := by
  rw [dot, zipWith_mul_map_fin, fsum_map_fin]

theorem norm_map_fin (rs : List ℝ) :
    norm (rs.map fin) = fin (Real.sqrt (rs.map fun r => r * r).sum) := by
  have hmap : (rs.map fin).map (fun x => mul x x) = (rs.map fun r => r * r).map fin := by
    induction rs with
    | nil => rfl
    | cons r rs ih => simp [ih]
  have hnn : 0 ≤ (rs.map fun r => r * r).sum :=
    List.sum_nonneg (by rintro x hx; simp at hx; obtain ⟨r, _, rfl⟩ := hx; exact mul_self_nonneg r)
  rw [norm, hmap, fsum_map_fin, fsqrt_fin _ hnn]

end F

theorem unionKeys_comm (f1 f2 : List (String × F)) :
    unionKeys f1 f2 = unionKeys f2 f1 := by
  unfold unionKeys
  have hp := List.Perm.dedup ((List.perm_insertionSort (· ≤ ·)
      (f1.map Prod.fst ++ f2.map Prod.fst)).trans
    (List.perm_append_comm.trans
      (List.perm_insertionSort (· ≤ ·) (f2.map Prod.fst ++ f1.map Prod.fst)).symm))
  exact List.eq_of_perm_of_sorted hp
    (List.Pairwise.sublist (List.dedup_sublist _) (List.sorted_insertionSort _ _))
    (List.Pairwise.sublist (List.dedup_sublist _) (List.sorted_insertionSort _ _))

theorem mem_unionKeys (f1 f2 : List (String × F)) (w : String)
    (hw : w ∈ unionKeys f1 f2) :
    w ∈ f1.map Prod.fst ∨ w ∈ f2.map Prod.fst := by
  have := List.mem_dedup.mp hw
  have := (List.perm_insertionSort (· ≤ ·) _).mem_iff.mp this
  exact List.mem_append.mp this

theorem unionKeys_ne_nil (f1 f2 : List (String × F)) (h : f1 ≠ []) :
    unionKeys f1 f2 ≠ [] := by
  obtain ⟨p, m, rfl⟩ := List.exists_cons_of_ne_nil h
  intro hu
  have hmem : p.1 ∈ ((((p :: m).map Prod.fst) ++ f2.map Prod.fst).insertionSort
      (· ≤ ·)).dedup := by
    rw [List.mem_dedup, (List.perm_insertionSort (· ≤ ·) _).mem_iff]
    exact List.mem_append.mpr (Or.inl (by simp))
  rw [show ((((p :: m).map Prod.fst) ++ f2.map Prod.fst).insertionSort
      (· ≤ ·)).dedup = unionKeys (p :: m) f2 from rfl, hu] at hmem
  exact (List.not_mem_nil _) hmem

theorem lookupF_mem (m : List (String × F)) (w : String)
    (hw : w ∈ m.map Prod.fst) :
    ∃ p ∈ m, p.1 = w ∧ lookupF m w = p.2 := by
  induction m with
  | nil => simp at hw
  | cons q m ih =>
      by_cases h : q.1 = w
      · refine ⟨q, List.mem_cons_self _ _, h, ?_⟩
        have hfind : (q :: m).find? (fun p => p.1 == w) = some q :=
          List.find?_cons_of_pos _ (by simpa using h)
        simp [lookupF, hfind]
      · have hw' : w ∈ m.map Prod.fst := by
          rcases List.mem_cons.mp hw with h1 | h1
          · exact absurd h1.symm h
          · exact h1
        obtain ⟨p, hp, hpw, hlk⟩ := ih hw'
        refine ⟨p, List.mem_cons_of_mem _ hp, hpw, ?_⟩
        have hfind : (q :: m).find? (fun p => p.1 == w) =
            m.find? (fun p => p.1 == w) :=
          List.find?_cons_of_neg _ (by simpa using h)
        simpa [lookupF, hfind] using hlk

theorem lookup_vec_fin_pos (m : List (String × F))
    (hpos : ∀ p ∈ m, ∃ r : ℝ, p.2 = F.fin r ∧ 0 < r) (u : List String)
    (hu : ∀ w ∈ u, w ∈ m.map Prod.fst) :
    ∃ rs : List ℝ, (u.map fun w => lookupF m w) = rs.map F.fin ∧
      (∀ r ∈ rs, 0 < r) ∧ rs.length = u.length := by
  induction u with
  | nil => exact ⟨[], by simp, by simp, by simp⟩
  | cons w u ih =>
      obtain ⟨rs, hmap, hrs, hlen⟩ := ih fun x hx => hu x (List.mem_cons_of_mem _ hx)
      obtain ⟨p, hp, _, hlk⟩ := lookupF_mem m w (hu w (List.mem_cons_self _ _))
      obtain ⟨r, hr, hrpos⟩ := hpos p hp
      refine ⟨r :: rs, ?_, ?_, by simp [hlen]⟩
      · simp [hlk, hr, hmap]
      · intro x hx
        rcases List.mem_cons.mp hx with rfl | hx'
        · exact hrpos
        · exact hrs x hx'

theorem zipWith_mul_self (rs : List ℝ) :
    List.zipWith (fun a b => a * b) rs rs = rs.map fun r => r * r := by
  induction rs with
  | nil => rfl
  | cons r rs ih => simp [ih]

theorem sim_self_pos (m : List (String × F)) (hne : m ≠ [])
    (hpos : ∀ p ∈ m, ∃ r : ℝ, p.2 = F.fin r ∧ 0 < r) :
    calculate_frequency_similarity m m = F.fin 1 := by
  simp only [calculate_frequency_similarity]
  have hmem : ∀ w ∈ unionKeys m m, w ∈ m.map Prod.fst := fun w hw =>
    (mem_unionKeys m m w hw).elim id id
  obtain ⟨rs, hmap, hrs, hlen⟩ := lookup_vec_fin_pos m hpos (unionKeys m m) hmem
  have hune : unionKeys m m ≠ [] := unionKeys_ne_nil m m hne
  have hrne : rs ≠ [] := by
    intro h
    rw [h, List.length_nil] at hlen
    exact hune (List.length_eq_zero.mp hlen.symm)
  rw [hmap, F.dot_map_fin, F.norm_map_fin, zipWith_mul_self]
  have hSpos : 0 < (rs.map fun r => r * r).sum := by
    refine List.sum_pos _ ?_ (by simpa using hrne)
    rintro x hx
    rw [List.mem_map] at hx
    obtain ⟨r, hr, rfl⟩ := hx
    exact mul_pos (hrs r hr) (hrs r hr)
  rw [F.mul_fin_fin, Real.mul_self_sqrt hSpos.le,
    F.div_fin_fin _ _ hSpos.ne', div_self hSpos.ne']

theorem sim_nil_nil : calculate_frequency_similarity [] [] = F.nan := by
  simp [calculate_frequency_similarity, unionKeys, F.dot, F.fsum, F.norm,
    F.fsqrt, Real.sqrt_zero, F.div]

theorem sim_comm (f1 f2 : List (String × F)) :
    calculate_frequency_similarity f1 f2 = calculate_frequency_similarity f2 f1 := by
  simp only [calculate_frequency_similarity]
  rw [unionKeys_comm, F.dot_comm, F.mul_comm_f]

theorem clamp_unitF (v : F) : unitF (clamp v (F.fin 0) (F.fin 1)) := by
  cases v with
  | nan =>
      refine ⟨1, ?_, by norm_num⟩
      simp [clamp]
  | inf =>
      refine ⟨1, ?_, by norm_num⟩
      simp [clamp, F.fmin, F.fmax]
  | ninf =>
      refine ⟨0, ?_, by norm_num⟩
      simp [clamp, F.fmin, F.fmax]
  | fin x =>
      refine ⟨max (min x 1) 0, by simp [clamp], le_max_right _ _, ?_⟩
      exact max_le (le_trans (min_le_right _ _) le_rfl) (by norm_num)

theorem confidence_of_sim_nan (f1 f2 : TextFeatures)
    (h : calculate_frequency_similarity f1.word_frequencies f2.word_frequencies =
      F.nan) :
    calculate_confidence (compare_features f1 f2) = F.fin 1 := by
  simp only [compare_features, calculate_confidence, h, List.map_cons,
    F.sub_nan_right, F.mul_nan_left, List.length_cons, List.length_nil]
  rw [F.fsum_nan_head]
  simp [clamp]

theorem punct_add_content (tokens : List Token) :
    punctuationCount tokens + (contentWords tokens).length = tokens.length := by
  unfold punctuationCount contentWords
  rw [List.length_map]
  exact (List.length_eq_length_filter_add (l := tokens)
    (fun t : Token => isPunctWord t.text)).symm

theorem content_real (tokens : List Token) :
    (tokens.length : ℝ) - punctuationCount tokens = (contentWords tokens).length := by
  have h := punct_add_content tokens
  have h2 : (punctuationCount tokens : ℝ) + (contentWords tokens).length =
      tokens.length := by exact_mod_cast congrArg (Nat.cast (R := ℝ)) h
  linarith

theorem extract_features_main (text : String) (tokens : List Token)
    (h : ¬ tokens.length < 2) :
    extract_features text tokens =
      { word_frequencies :=
          (contentWords tokens).dedup.map fun w =>
            (w, F.div (F.fin ((contentWords tokens).count w))
              (F.fin ((tokens.length : ℝ) - punctuationCount tokens)))
        particle_ratio :=
          F.fmax (F.div (F.fin (countTag tokens "助詞"))
            (F.fin ((tokens.length : ℝ) - punctuationCount tokens))) (F.fin 0.1)
        verb_ratio :=
          F.fmax (F.div (F.fin (countTag tokens "動詞"))
            (F.fin ((tokens.length : ℝ) - punctuationCount tokens))) (F.fin 0.1)
        adjective_ratio :=
          F.fmax (F.div (F.fin (countTag tokens "形容詞"))
            (F.fin ((tokens.length : ℝ) - punctuationCount tokens))) (F.fin 0.1)
        unique_words_ratio :=
          if 0 < (tokens.length : ℝ) - punctuationCount tokens then
            F.div (F.fin (contentWords tokens).dedup.length)
              (F.fin ((tokens.length : ℝ) - punctuationCount tokens))
          else F.fin 0
        avg_sentence_length :=
          if 0 < sentenceCount text then
            F.div (F.fin ((tokens.length : ℝ) - punctuationCount tokens))
              (F.fin (sentenceCount text))
          else F.fin ((tokens.length : ℝ) - punctuationCount tokens)
        punctuation_ratio :=
          if 0 < tokens.length then
            F.div (F.fin (punctuationCount tokens)) (F.fin (tokens.length : ℝ))
          else F.fin 0 } := by
  simp only [extract_features, h, if_false, ite_false]

theorem wf_empty_of_short (text : String) (tokens : List Token)
    (h : tokens.length < 2) :
    (extract_features text tokens).word_frequencies = [] := by
  simp only [extract_features, h, ite_true]

theorem wf_empty_of_no_content (text : String) (tokens : List Token)
    (h2 : ¬ tokens.length < 2) (hws : contentWords tokens = []) :
    (extract_features text tokens).word_frequencies = [] := by
  rw [extract_features_main text tokens h2, hws]
  rfl

theorem conf_of_empty_freqs (t1 t2 : String) (k1 k2 : List Token)
    (h1 : (extract_features t1 k1).word_frequencies = [])
    (h2 : (extract_features t2 k2).word_frequencies = []) :
    (compare_texts t1 t2 k1 k2).confidence = F.fin 1 := by
  simp only [compare_texts]
  apply confidence_of_sim_nan
  rw [h1, h2]
  exact sim_nil_nil

theorem same_author_eq (t1 t2 : String) (k1 k2 : List Token) :
    (compare_texts t1 t2 k1 k2).same_author =
      F.bgt ((compare_texts t1 t2 k1 k2).confidence) (F.fin 0.6) := rfl

theorem div_self_fin (a : ℝ) (h : a ≠ 0) :
    F.div (F.fin a) (F.fin a) = F.fin 1 := by
  rw [F.div_fin_fin _ _ h, div_self h]

theorem compare_self_fin (f : TextFeatures)
    (hsim : calculate_frequency_similarity f.word_frequencies
      f.word_frequencies = F.fin 1)
    (a : ℝ) (ha : f.avg_sentence_length = F.fin a) (hapos : 0 < a)
    (rp : ℝ) (hrp : f.particle_ratio = F.fin rp)
    (rv : ℝ) (hrv : f.verb_ratio = F.fin rv)
    (rj : ℝ) (hrj : f.adjective_ratio = F.fin rj)
    (rq : ℝ) (hrq : f.punctuation_ratio = F.fin rq)
    (ru : ℝ) (hru : f.unique_words_ratio = F.fin ru) :
    compare_features f f = zeroDetails := by
  have hdd : F.div (F.fin a) (F.fin a) = F.fin 1 := div_self_fin a hapos.ne'
  simp only [compare_features, zeroDetails, hsim, ha, hrp, hrv, hrj, hrq, hru,
    F.bgt_fin_fin, lt_self_iff_false, decide_False, Bool.false_eq_true,
    if_false, ite_false, hdd, F.sub_fin_fin, F.fabs_fin, F.fmin_fin_fin]
  have hmin : min (0:ℝ) 0.5 = 0 := min_eq_left (by norm_num)
  norm_num [sub_self, abs_zero, hmin]

theorem confidence_zeroDetails :
    calculate_confidence zeroDetails = F.fin (109 / 140) := by
  have hW : aspectWeight "Word Usage" = 3 := by simp [aspectWeight]
  have hS : aspectWeight "Sentence Length" = 1.5 := by simp [aspectWeight]
  have hP : aspectWeight "Particle Usage" = 1.5 := by simp [aspectWeight]
  have hV : aspectWeight "Verb Usage" = 1.2 := by simp [aspectWeight]
  have hA : aspectWeight "Adjective Usage" = 1.2 := by simp [aspectWeight]
  have hQ : aspectWeight "Punctuation" = 1 := by simp [aspectWeight]
  have hR : aspectWeight "Vocabulary Richness" = 1.5 := by simp [aspectWeight]
  simp only [calculate_confidence, zeroDetails, List.map_cons, List.map_nil,
    List.length_cons, List.length_nil, hW, hS, hP, hV, hA, hQ, hR,
    F.sub_fin_fin, F.mul_fin_fin, F.fsum, List.foldl_cons, List.foldl_nil,
    F.add_fin_fin]
  rw [F.div_fin_fin _ _ (by norm_num)]
  simp only [clamp, F.fmin_fin_fin, F.fmax_fin_fin]
  norm_num [min_def, max_def]

theorem self_conf_generic (text : String) (tokens : List Token)
    (h2 : ¬ tokens.length < 2) (hws : contentWords tokens ≠ []) :
    (compare_texts text text tokens tokens).confidence = F.fin (109 / 140) := by
  have hmain := extract_features_main text tokens h2
  have hC : (0:ℝ) < (tokens.length : ℝ) - punctuationCount tokens := by
    rw [content_real]
    exact_mod_cast List.length_pos.mpr hws
  have hsim : calculate_frequency_similarity
      (extract_features text tokens).word_frequencies
      (extract_features text tokens).word_frequencies = F.fin 1 := by
    apply sim_self_pos
    · simp only [hmain]
      intro hnil
      rw [List.map_eq_nil_iff] at hnil
      exact hws ((List.dedup_eq_nil _).mp hnil)
    · simp only [hmain]
      intro p hp
      simp only [List.mem_map] at hp
      obtain ⟨w, hw, rfl⟩ := hp
      refine ⟨_, F.div_fin_fin _ _ hC.ne', div_pos ?_ hC⟩
      have hcnt : 0 < (contentWords tokens).count w :=
        List.count_pos_iff.mpr (List.mem_dedup.mp hw)
      exact_mod_cast hcnt
  have havg : ∃ a : ℝ,
      (extract_features text tokens).avg_sentence_length = F.fin a ∧ 0 < a := by
    simp only [hmain]
    by_cases hsc : 0 < sentenceCount text
    · have hscr : ((sentenceCount text : ℝ)) ≠ 0 := by exact_mod_cast hsc.ne'
      have hscpos : (0:ℝ) < (sentenceCount text : ℝ) := by exact_mod_cast hsc
      refine ⟨_, ?_, div_pos hC hscpos⟩
      rw [if_pos hsc, F.div_fin_fin _ _ hscr]
    · exact ⟨_, by rw [if_neg hsc], hC⟩
  obtain ⟨a, ha, hapos⟩ := havg
  have hlen : 0 < tokens.length := by omega
  have hlenr : ((tokens.length : ℝ)) ≠ 0 := by
    have : (0:ℝ) < tokens.length := by exact_mod_cast hlen
    exact this.ne'
  have hp : (extract_features text tokens).particle_ratio =
      F.fin (max ((countTag tokens "助詞" : ℝ) /
        ((tokens.length : ℝ) - punctuationCount tokens)) 0.1) := by
    simp only [hmain]
    rw [F.div_fin_fin _ _ hC.ne', F.fmax_fin_fin]
  have hv : (extract_features text tokens).verb_ratio =
      F.fin (max ((countTag tokens "動詞" : ℝ) /
        ((tokens.length : ℝ) - punctuationCount tokens)) 0.1) := by
    simp only [hmain]
    rw [F.div_fin_fin _ _ hC.ne', F.fmax_fin_fin]
  have hj : (extract_features text tokens).adjective_ratio =
      F.fin (max ((countTag tokens "形容詞" : ℝ) /
        ((tokens.length : ℝ) - punctuationCount tokens)) 0.1) := by
    simp only [hmain]
    rw [F.div_fin_fin _ _ hC.ne', F.fmax_fin_fin]
  have hq : (extract_features text tokens).punctuation_ratio =
      F.fin ((punctuationCount tokens : ℝ) / (tokens.length : ℝ)) := by
    simp only [hmain]
    rw [if_pos hlen, F.div_fin_fin _ _ hlenr]
  have hu : (extract_features text tokens).unique_words_ratio =
      F.fin (((contentWords tokens).dedup.length : ℝ) /
        ((tokens.length : ℝ) - punctuationCount tokens)) := by
    simp only [hmain]
    rw [if_pos hC, F.div_fin_fin _ _ hC.ne']
  show calculate_confidence (compare_features (extract_features text tokens)
    (extract_features text tokens)) = F.fin (109 / 140)
  rw [compare_self_fin (extract_features text tokens) hsim a ha hapos _ hp _ hv
    _ hj _ hq _ hu]
  exact confidence_zeroDetails

theorem str_a_lt_b : ("a" : String) < "b" := by
  rw [String.lt_iff_toList_lt]
  exact List.Lex.rel (by decide)

theorem unionKeys_ab :
    unionKeys [("a", F.fin 1)] [("b", F.fin 1)] = ["a", "b"] := by
  unfold unionKeys
  simp only [List.map_cons, List.map_nil, List.cons_append, List.nil_append,
    List.insertionSort, List.orderedInsert]
  rw [if_pos str_a_lt_b.le]
  simp [List.dedup_cons_of_not_mem, List.dedup_cons_of_mem]

theorem sim_onlyA_onlyB :
    calculate_frequency_similarity [("a", F.fin 1)] [("b", F.fin 1)] = F.fin 0 := by
  simp only [calculate_frequency_similarity, unionKeys_ab, List.map_cons,
    List.map_nil]
  rw [show lookupF [("a", F.fin 1)] "a" = F.fin 1 from rfl,
    show lookupF [("a", F.fin 1)] "b" = F.fin 0 from rfl,
    show lookupF [("b", F.fin 1)] "a" = F.fin 0 from rfl,
    show lookupF [("b", F.fin 1)] "b" = F.fin 1 from rfl]
  simp only [List.map_cons, List.map_nil, F.dot, F.norm, List.zipWith,
    F.mul_fin_fin, F.fsum, List.foldl_cons, List.foldl_nil, F.add_fin_fin,
    List.map]
  norm_num
  rw [F.fsqrt_fin 1 (by norm_num), Real.sqrt_one, F.mul_fin_fin,
    F.div_fin_fin _ _ (by norm_num)]
  norm_num

theorem sim_nil_b :
    calculate_frequency_similarity [] [("b", F.fin 1)] = F.nan := by
  simp only [calculate_frequency_similarity]
  rw [show unionKeys [] [("b", F.fin 1)] = ["b"] from by
    unfold unionKeys
    simp [List.insertionSort, List.orderedInsert]]
  simp only [List.map_cons, List.map_nil]
  rw [show lookupF [] "b" = F.fin 0 from rfl,
    show lookupF [("b", F.fin 1)] "b" = F.fin 1 from rfl]
  simp only [List.map_cons, List.map_nil, F.dot, F.norm, List.zipWith,
    F.mul_fin_fin, F.fsum, List.foldl_cons, List.foldl_nil, F.add_fin_fin,
    List.map]
  norm_num
  rw [F.fsqrt_fin 0 le_rfl, F.fsqrt_fin 1 (by norm_num), Real.sqrt_zero,
    Real.sqrt_one, F.mul_fin_fin]
  norm_num [F.div]

theorem abs_sub_comm_f (a b : F) : F.fabs (F.sub a b) = F.fabs (F.sub b a) := by
  cases a <;> cases b <;> simp [F.sub, F.fabs, abs_sub_comm]

theorem length_ratio_comm (x y : F) :
    (if F.bgt x y then F.div y x else F.div x y) =
      (if F.bgt y x then F.div x y else F.div y x) := by
  cases x with
  | fin a =>
      cases y with
      | fin b =>
          rcases lt_trichotomy a b with h | h | h
          · have h1 : F.bgt (F.fin a) (F.fin b) = false := by
              simp [F.bgt, F.blt, asymm h]
            have h2 : F.bgt (F.fin b) (F.fin a) = true := by
              simp [F.bgt, F.blt, h]
            simp [h1, h2]
          · subst h
            simp
          · have h1 : F.bgt (F.fin a) (F.fin b) = true := by
              simp [F.bgt, F.blt, h]
            have h2 : F.bgt (F.fin b) (F.fin a) = false := by
              simp [F.bgt, F.blt, asymm h]
            simp [h1, h2]
      | nan => simp [F.bgt, F.blt, F.div]
      | inf => simp [F.bgt, F.blt, F.div]
      | ninf => simp [F.bgt, F.blt, F.div]
  | nan => cases y <;> simp [F.bgt, F.blt, F.div]
  | inf => cases y <;> simp [F.bgt, F.blt, F.div]
  | ninf => cases y <;> simp [F.bgt, F.blt, F.div]

theorem compare_features_swap (g1 g2 : TextFeatures) :
    (compare_features g1 g2).map DetailedResult.difference =
      (compare_features g2 g1).map DetailedResult.difference := by
  simp only [compare_features, List.map_cons, List.map_nil]
  rw [sim_comm, length_ratio_comm g1.avg_sentence_length g2.avg_sentence_length,
    abs_sub_comm_f g1.particle_ratio g2.particle_ratio,
    abs_sub_comm_f g1.verb_ratio g2.verb_ratio,
    abs_sub_comm_f g1.adjective_ratio g2.adjective_ratio,
    abs_sub_comm_f g1.punctuation_ratio g2.punctuation_ratio,
    abs_sub_comm_f g1.unique_words_ratio g2.unique_words_ratio]

theorem marker_diff_halfUnit (x y : F) (hx : nonnegF x) (hy : nonnegF y) :
    halfUnitF (F.fmin (F.fabs (F.sub x y)) (F.fin 0.5)) := by
  obtain ⟨a, rfl, _⟩ := hx
  obtain ⟨b, rfl, _⟩ := hy
  refine ⟨min |a - b| 0.5, by simp, le_min (abs_nonneg _) (by norm_num), ?_⟩
  exact le_trans (min_le_right _ _) (by norm_num)

theorem sentence_diff_halfUnit (x y : F) (hx : nonnegF x) (hy : nonnegF y) :
    halfUnitF (F.fmin
      (F.sub (F.fin 1) (if F.bgt x y then F.div y x else F.div x y))
      (F.fin 0.5)) := by
  obtain ⟨a, rfl, ha⟩ := hx
  obtain ⟨b, rfl, hb⟩ := hy
  by_cases hba : b < a
  · have h1 : F.bgt (F.fin a) (F.fin b) = true := by simp [F.bgt, F.blt, hba]
    have hA : (0:ℝ) < a := lt_of_le_of_lt hb hba
    rw [h1, if_pos rfl, F.div_fin_fin _ _ hA.ne', F.sub_fin_fin, F.fmin_fin_fin]
    have hr1 : b / a ≤ 1 := (div_le_one hA).mpr hba.le
    refine ⟨min (1 - b / a) 0.5, rfl,
      le_min (by linarith) (by norm_num),
      le_trans (min_le_right _ _) (by norm_num)⟩
  · have h1 : F.bgt (F.fin a) (F.fin b) = false := by
      simp [F.bgt, F.blt, not_lt.mp hba]
    push_neg at hba
    rw [h1, if_neg (by simp)]
    by_cases hb0 : b = 0
    · have ha0 : a = 0 := le_antisymm (hb0 ▸ hba) ha
      rw [ha0, hb0, F.div_zero_zero, F.sub_nan_right, F.fmin_nan_left]
      exact ⟨0.5, rfl, by norm_num, by norm_num⟩
    · have hbpos : (0:ℝ) < b := lt_of_le_of_ne hb (Ne.symm hb0)
      rw [F.div_fin_fin _ _ hbpos.ne', F.sub_fin_fin, F.fmin_fin_fin]
      have hr1 : a / b ≤ 1 := (div_le_one hbpos).mpr hba
      refine ⟨min (1 - a / b) 0.5, rfl,
        le_min (by linarith) (by norm_num),
        le_trans (min_le_right _ _) (by norm_num)⟩

theorem extract_features_short (text : String) (tokens : List Token)
    (h : tokens.length < 2) :
    extract_features text tokens =
      ⟨[], F.fin 0, F.fin 0, F.fin 0, F.fin 0, F.fin (tokens.length : ℝ),
        F.fin 0⟩ := by
  simp only [extract_features, h, ite_true]

theorem countTag_le_content (tokens : List Token) (tag : String)
    (htr : trackedTagsAreContent tokens)
    (htag : tag = "助詞" ∨ tag = "動詞" ∨ tag = "形容詞") :
    countTag tokens tag ≤ (contentWords tokens).length := by
  unfold countTag contentWords
  rw [List.length_map, ← List.countP_eq_length_filter,
    ← List.countP_eq_length_filter]
  apply List.countP_mono_left
  intro t ht hpos
  have hpos2 : t.pos = tag := by simpa using hpos
  have := htr t ht (by rcases htag with h | h | h <;> rw [← h] <;> simp [hpos2])
  simp [this]

theorem tracked_ratio_unit (tokens : List Token) (n : ℕ)
    (hn : n ≤ (contentWords tokens).length) :
    unitF (F.fmax
      (F.div (F.fin n) (F.fin ((tokens.length : ℝ) - punctuationCount tokens)))
      (F.fin 0.1)) := by
  by_cases hws : contentWords tokens = []
  · have hC : (tokens.length : ℝ) - punctuationCount tokens = 0 := by
      rw [content_real, hws]
      simp
    have hn0 : n = 0 := by
      rw [hws] at hn
      simpa using hn
    rw [hC, hn0, Nat.cast_zero, F.div_zero_zero, F.fmax_nan_left]
    exact ⟨0.1, rfl, by norm_num, by norm_num⟩
  · have hC : (0:ℝ) < (tokens.length : ℝ) - punctuationCount tokens := by
      rw [content_real]
      exact_mod_cast List.length_pos.mpr hws
    rw [F.div_fin_fin _ _ hC.ne', F.fmax_fin_fin]
    refine ⟨max ((n : ℝ) / _) 0.1, rfl,
      le_trans (by norm_num) (le_max_right _ _), ?_⟩
    refine max_le ?_ (by norm_num)
    rw [div_le_one hC, content_real]
    exact_mod_cast hn

theorem punctuationCount_le (tokens : List Token) :
    punctuationCount tokens ≤ tokens.length :=
  List.length_filter_le _ _

theorem features_bounds_main (text : String) (tokens : List Token)
    (htr : trackedTagsAreContent tokens) (h2 : ¬ tokens.length < 2) :
    unitF (extract_features text tokens).particle_ratio ∧
      unitF (extract_features text tokens).verb_ratio ∧
      unitF (extract_features text tokens).adjective_ratio ∧
      unitF (extract_features text tokens).unique_words_ratio ∧
      unitF (extract_features text tokens).punctuation_ratio ∧
      nonnegF (extract_features text tokens).avg_sentence_length ∧
      ∀ p ∈ (extract_features text tokens).word_frequencies, unitF p.2 := by
  have hmain := extract_features_main text tokens h2
  have hlen : 0 < tokens.length := by omega
  have hlenr : (0:ℝ) < (tokens.length : ℝ) := by exact_mod_cast hlen
  have hCnn : (0:ℝ) ≤ (tokens.length : ℝ) - punctuationCount tokens := by
    rw [content_real]
    positivity
  refine ⟨?_, ?_, ?_, ?_, ?_, ?_, ?_⟩
  · simp only [hmain]
    exact tracked_ratio_unit tokens _
      (countTag_le_content tokens _ htr (Or.inl rfl))
  · simp only [hmain]
    exact tracked_ratio_unit tokens _
      (countTag_le_content tokens _ htr (Or.inr (Or.inl rfl)))
  · simp only [hmain]
    exact tracked_ratio_unit tokens _
      (countTag_le_content tokens _ htr (Or.inr (Or.inr rfl)))
  · simp only [hmain]
    by_cases hC : (0:ℝ) < (tokens.length : ℝ) - punctuationCount tokens
    · rw [if_pos hC, F.div_fin_fin _ _ hC.ne']
      refine ⟨_, rfl, by positivity, ?_⟩
      rw [div_le_one hC, content_real]
      exact_mod_cast (List.dedup_sublist (contentWords tokens)).length_le
    · rw [if_neg hC]
      exact ⟨0, rfl, le_rfl, by norm_num⟩
  · simp only [hmain]
    rw [if_pos hlen, F.div_fin_fin _ _ hlenr.ne']
    refine ⟨_, rfl, by positivity, ?_⟩
    rw [div_le_one hlenr]
    exact_mod_cast punctuationCount_le tokens
  · simp only [hmain]
    by_cases hsc : 0 < sentenceCount text
    · rw [if_pos hsc]
      have hscr : (0:ℝ) < (sentenceCount text : ℝ) := by exact_mod_cast hsc
      rw [F.div_fin_fin _ _ hscr.ne']
      exact ⟨_, rfl, by positivity⟩
    · rw [if_neg hsc]
      exact ⟨_, rfl, hCnn⟩
  · simp only [hmain]
    intro p hp
    simp only [List.mem_map] at hp
    obtain ⟨w, hw, rfl⟩ := hp
    have hws : contentWords tokens ≠ [] := by
      intro hnil
      rw [hnil] at hw
      simp at hw
    have hC : (0:ℝ) < (tokens.length : ℝ) - punctuationCount tokens := by
      rw [content_real]
      exact_mod_cast List.length_pos.mpr hws
    rw [F.div_fin_fin _ _ hC.ne']
    refine ⟨_, rfl, by positivity, ?_⟩
    rw [div_le_one hC, content_real]
    exact_mod_cast List.count_le_length w (contentWords tokens)

/-- C1: the spec demands that a zero-norm frequency vector yield an explicitly
defined similarity such as 0.0, never a NaN.  The code divides by the product
of the norms unconditionally, so two empty maps (both norms zero) and an
empty map against a nonempty one (one norm zero) both evaluate to NaN, which
then flows into the Word Usage difference. -/
theorem similarity_zero_norm_nan :
    calculate_frequency_similarity [] [] = F.nan ∧
      calculate_frequency_similarity [] [("b", F.fin 1)] = F.nan :=
  ⟨sim_nil_nil, sim_nil_b⟩

/-- C2: the confidence aggregator computes exactly
`clamp(sum((1 - difference) * weight) / (count * 2.0), 0, 1)` with the weight
table the spec lists (`spec_aggregate` is that formula written from the
spec), and the pipeline decides `same_author` exactly by
`confidence > 0.6` (`F.bgt` is the `f64` greater-than). -/
theorem confidence_matches_spec_formula :
    (∀ details : List DetailedResult,
      calculate_confidence details = spec_aggregate details) ∧
    ∀ (t1 t2 : String) (k1 k2 : List Token),
      (compare_texts t1 t2 k1 k2).same_author =
        F.bgt ((compare_texts t1 t2 k1 k2).confidence) (F.fin 0.6) :=
  ⟨fun _ => rfl, fun _ _ _ _ => rfl⟩

/-- C3: a token sequence with fewer than 2 tokens makes the feature
extractor return the zero/identity feature vector, with
`avg_sentence_length` equal to the total token count. -/
theorem extract_features_degenerate (text : String) (tokens : List Token)
    (h : tokens.length < 2) :
    extract_features text tokens =
      ⟨[], F.fin 0, F.fin 0, F.fin 0, F.fin 0, F.fin (tokens.length : ℝ),
        F.fin 0⟩ :=
  extract_features_short text tokens h

/-- Witness for C3 at the empty text with the empty token sequence. -/
theorem extract_features_degenerate_witness :
    extract_features "" [] =
      ⟨[], F.fin 0, F.fin 0, F.fin 0, F.fin 0, F.fin 0, F.fin 0⟩ := by
  simpa using extract_features_degenerate "" [] (by decide)

/-- C4 counterexample: for a token sequence in which pure-punctuation tokens
carry the particle tag (two particle-tagged punctuation tokens next to one
content token), `particle_ratio` evaluates to 2, outside `[0, 1]`, so the
claim as stated over arbitrary tokenizer output fails. -/
theorem extract_features_ratio_out_of_unit :
    ¬ unitF ((extract_features "x!?" punctParticleTokens).particle_ratio) := by
  have h2 : ¬ punctParticleTokens.length < 2 := by decide
  have hmain := extract_features_main "x!?" punctParticleTokens h2
  simp only [hmain]
  rw [show countTag punctParticleTokens "助詞" = 2 from rfl,
    show punctuationCount punctParticleTokens = 2 from rfl,
    show punctParticleTokens.length = 3 from rfl]
  have hden : ((3:ℕ) : ℝ) - ((2:ℕ) : ℝ) = 1 := by norm_num
  rw [hden, F.div_fin_fin _ _ one_ne_zero, F.fmax_fin_fin]
  rintro ⟨x, hx, _, hx1⟩
  have hx2 : max (((2:ℕ):ℝ) / 1) 0.1 = x := by
    simpa [F.fin.injEq] using hx
  rw [← hx2] at hx1
  rw [max_le_iff] at hx1
  norm_num at hx1

/-- C4 amended: under the sanity property of the real tokenizer's output that
a token tagged with one of the three tracked parts of speech is never pure
punctuation, all five ratio fields lie in `[0, 1]`, `avg_sentence_length` is
a finite nonnegative real, every stored word frequency lies in `[0, 1]`, and
no field is NaN or infinite (every field is a finite real). -/
theorem extract_features_bounds (text : String) (tokens : List Token)
    (htr : trackedTagsAreContent tokens) :
    unitF (extract_features text tokens).particle_ratio ∧
      unitF (extract_features text tokens).verb_ratio ∧
      unitF (extract_features text tokens).adjective_ratio ∧
      unitF (extract_features text tokens).unique_words_ratio ∧
      unitF (extract_features text tokens).punctuation_ratio ∧
      nonnegF (extract_features text tokens).avg_sentence_length ∧
      ∀ p ∈ (extract_features text tokens).word_frequencies, unitF p.2 := by
  by_cases h2 : tokens.length < 2
  · simp only [extract_features_short text tokens h2]
    refine ⟨⟨0, rfl, le_rfl, by norm_num⟩, ⟨0, rfl, le_rfl, by norm_num⟩,
      ⟨0, rfl, le_rfl, by norm_num⟩, ⟨0, rfl, le_rfl, by norm_num⟩,
      ⟨0, rfl, le_rfl, by norm_num⟩, ⟨(tokens.length : ℝ), rfl, by positivity⟩,
      ?_⟩
    intro p hp
    simp at hp
  · exact features_bounds_main text tokens htr h2

/-- Witness for C4 at the text `"ab"` with its two noun tokens. -/
theorem extract_features_bounds_witness :
    unitF (extract_features "ab" abTokens).particle_ratio ∧
      unitF (extract_features "ab" abTokens).verb_ratio ∧
      unitF (extract_features "ab" abTokens).adjective_ratio ∧
      unitF (extract_features "ab" abTokens).unique_words_ratio ∧
      unitF (extract_features "ab" abTokens).punctuation_ratio ∧
      nonnegF (extract_features "ab" abTokens).avg_sentence_length ∧
      ∀ p ∈ (extract_features "ab" abTokens).word_frequencies, unitF p.2 :=
  extract_features_bounds "ab" abTokens (by unfold trackedTagsAreContent; decide)

/-- C5 counterexample: for two feature vectors with disjoint one-word
vocabularies the Word Usage aspect has difference `1 - 0 = 1`, outside
`[0, 0.5]`: the Word Usage difference is uncapped in the code. -/
theorem word_usage_difference_uncapped :
    ∃ r ∈ compare_features featOnlyA featOnlyB, ¬ halfUnitF r.difference := by
  have hd : F.sub (F.fin 1)
      (calculate_frequency_similarity featOnlyA.word_frequencies
        featOnlyB.word_frequencies) = F.fin 1 := by
    rw [show featOnlyA.word_frequencies = [("a", F.fin 1)] from rfl,
      show featOnlyB.word_frequencies = [("b", F.fin 1)] from rfl,
      sim_onlyA_onlyB, F.sub_fin_fin]
    norm_num
  refine ⟨⟨"Word Usage",
    F.sub (F.fin 1) (calculate_frequency_similarity featOnlyA.word_frequencies
      featOnlyB.word_frequencies),
    "Similarity in word choice and frequency"⟩, ?_, ?_⟩
  · simp only [compare_features]
    exact List.mem_cons_self _ _
  · rintro ⟨x, hx, _, hx1⟩
    simp only [hd, F.fin.injEq] at hx
    rw [← hx] at hx1
    norm_num at hx1

/-- C5 amended: for feature vectors whose scalar fields are finite
nonnegative reals (the data-model invariant), every aspect result other than
Word Usage has its difference in `[0, 0.5]`; the Word Usage difference is
exempt (the code caps the other six aspects at 0.5 but not Word Usage). -/
theorem aspect_differences_capped (f1 f2 : TextFeatures)
    (h1 : featuresNonneg f1) (h2 : featuresNonneg f2) :
    ∀ r ∈ compare_features f1 f2, r.aspect ≠ "Word Usage" →
      halfUnitF r.difference := by
  obtain ⟨h1p, h1v, h1j, h1u, h1a, h1q⟩ := h1
  obtain ⟨h2p, h2v, h2j, h2u, h2a, h2q⟩ := h2
  intro r hr hasp
  simp only [compare_features, List.mem_cons, List.not_mem_nil, or_false] at hr
  rcases hr with rfl | rfl | rfl | rfl | rfl | rfl | rfl
  · exact absurd rfl hasp
  · exact sentence_diff_halfUnit _ _ h1a h2a
  · exact marker_diff_halfUnit _ _ h1p h2p
  · exact marker_diff_halfUnit _ _ h1v h2v
  · exact marker_diff_halfUnit _ _ h1j h2j
  · exact marker_diff_halfUnit _ _ h1q h2q
  · exact marker_diff_halfUnit _ _ h1u h2u

/-- Witness for C5 at the Particle Usage aspect of the two concrete feature
vectors `featOnlyA` and `featOnlyB`. -/
theorem aspect_differences_capped_witness :
    halfUnitF (F.fmin
      (F.fabs (F.sub featOnlyA.particle_ratio featOnlyB.particle_ratio))
      (F.fin 0.5)) :=
  aspect_differences_capped featOnlyA featOnlyB
    ⟨⟨0.1, rfl, by norm_num⟩, ⟨0.1, rfl, by norm_num⟩, ⟨0.1, rfl, by norm_num⟩,
      ⟨1, rfl, by norm_num⟩, ⟨1, rfl, by norm_num⟩, ⟨0, rfl, le_rfl⟩⟩
    ⟨⟨0.1, rfl, by norm_num⟩, ⟨0.1, rfl, by norm_num⟩, ⟨0.1, rfl, by norm_num⟩,
      ⟨1, rfl, by norm_num⟩, ⟨1, rfl, by norm_num⟩, ⟨0, rfl, le_rfl⟩⟩
    ⟨"Particle Usage",
      F.fmin (F.fabs (F.sub featOnlyA.particle_ratio featOnlyB.particle_ratio))
        (F.fin 0.5),
      "Difference in particle usage"⟩
    (by
      simp only [compare_features]
      exact List.mem_cons_of_mem _ (List.mem_cons_of_mem _
        (List.mem_cons_self _ _)))
    (by decide)

/-- C6: the vocabulary similarity is symmetric in its two arguments, and
swapping the two feature vectors leaves every aspect difference of the
comparator unchanged. -/
theorem similarity_and_differences_symmetric :
    (∀ f1 f2 : List (String × F),
      calculate_frequency_similarity f1 f2 =
        calculate_frequency_similarity f2 f1) ∧
    ∀ g1 g2 : TextFeatures,
      (compare_features g1 g2).map DetailedResult.difference =
        (compare_features g2 g1).map DetailedResult.difference :=
  ⟨sim_comm, compare_features_swap⟩

/-- C7 counterexample: comparing the two-noun text `"ab"` with itself gives
confidence exactly 109/140 (about 0.78), which is not at or near 1.0 (it is
below 0.95): the normalization divisor `count * 2.0` exceeds the total
weight 10.9, so even a perfect self-comparison cannot reach 1.0. -/
theorem self_compare_confidence_not_near_one :
    (compare_texts "ab" "ab" abTokens abTokens).confidence =
      F.fin (109 / 140) ∧ (109 / 140 : ℝ) < 19 / 20 := by
  constructor
  · exact self_conf_generic "ab" abTokens (by decide) (by decide)
  · norm_num

/-- C7 amended: comparing any text with itself (same tokenizer output both
times) yields `same_author = true`; the confidence is exactly 109/140 (about
0.78, not near 1.0) whenever the text has at least two tokens and a content
word, and exactly 1.0 in the degenerate cases (where NaN reaches clamp). -/
theorem self_compare_same_author (text : String) (tokens : List Token) :
    (compare_texts text text tokens tokens).same_author = true ∧
      ((compare_texts text text tokens tokens).confidence = F.fin (109 / 140) ∨
        (compare_texts text text tokens tokens).confidence = F.fin 1) := by
  by_cases h2 : tokens.length < 2
  · have hc := conf_of_empty_freqs text text tokens tokens
      (wf_empty_of_short text tokens h2) (wf_empty_of_short text tokens h2)
    refine ⟨?_, Or.inr hc⟩
    rw [same_author_eq, hc]
    norm_num
  · by_cases hws : contentWords tokens = []
    · have hc := conf_of_empty_freqs text text tokens tokens
        (wf_empty_of_no_content text tokens h2 hws)
        (wf_empty_of_no_content text tokens h2 hws)
      refine ⟨?_, Or.inr hc⟩
      rw [same_author_eq, hc]
      norm_num
    · have hc := self_conf_generic text tokens h2 hws
      refine ⟨?_, Or.inl hc⟩
      rw [same_author_eq, hc]
      norm_num

/-- C8: whatever the two texts and whatever the tokenizer returns for them,
the confidence of the resulting `Analysis` is a finite real in `[0, 1]`:
`clamp(x, 0, 1)` written as `x.min(1.0).max(0.0)` maps every float - NaN and
the infinities included - into the unit interval. -/
theorem confidence_in_unit_interval (t1 t2 : String) (k1 k2 : List Token) :
    unitF ((compare_texts t1 t2 k1 k2).confidence) := by
  show unitF (calculate_confidence (compare_features (extract_features t1 k1)
    (extract_features t2 k2)))
  simp only [calculate_confidence]
  exact clamp_unitF _

/-- C9: when tokenization of either input fails, the handler's `unwrap`
panics: the route produces no `Analysis` at all (modelled as `none`), not a
typed recoverable error value, so the spec's required policy is violated by
the code. -/
theorem tokenizer_failure_no_analysis (e : String)
    (tok : Except String (List Token)) (t1 t2 : String) :
    compare_route (Except.error e) tok t1 t2 = none ∧
      compare_route tok (Except.error e) t1 t2 = none := by
  cases tok <;> exact ⟨rfl, rfl⟩

/-- C10: when both texts tokenize to fewer than 2 tokens, both frequency
vectors are empty (norm zero), the cosine division yields a NaN Word Usage
difference, the weighted sum becomes NaN, and `clamp`'s min-then-max maps
NaN to 1.0, so the pipeline reports confidence 1.0 and `same_author = true`. -/
theorem degenerate_pair_confidence_one (t1 t2 : String) (k1 k2 : List Token)
    (h1 : k1.length < 2) (h2 : k2.length < 2) :
    (compare_texts t1 t2 k1 k2).confidence = F.fin 1 ∧
      (compare_texts t1 t2 k1 k2).same_author = true ∧
      ((compare_texts t1 t2 k1 k2).detailed_analysis.map
        DetailedResult.difference).head? = some F.nan := by
  have hw1 := wf_empty_of_short t1 k1 h1
  have hw2 := wf_empty_of_short t2 k2 h2
  have hc := conf_of_empty_freqs t1 t2 k1 k2 hw1 hw2
  have hsim : calculate_frequency_similarity
      (extract_features t1 k1).word_frequencies
      (extract_features t2 k2).word_frequencies = F.nan := by
    rw [hw1, hw2]
    exact sim_nil_nil
  refine ⟨hc, ?_, ?_⟩
  · rw [same_author_eq, hc]
    norm_num
  · show ((compare_features (extract_features t1 k1)
      (extract_features t2 k2)).map DetailedResult.difference).head? = _
    simp only [compare_features, hsim, List.map_cons, F.sub_nan_right,
      List.head?]

/-- Witness for C10 at two empty texts with empty token sequences. -/
theorem degenerate_pair_confidence_one_witness :
    (compare_texts "" "" [] []).confidence = F.fin 1 ∧
      (compare_texts "" "" [] []).same_author = true ∧
      ((compare_texts "" "" [] []).detailed_analysis.map
        DetailedResult.difference).head? = some F.nan :=
  degenerate_pair_confidence_one "" "" [] [] (by decide) (by decide)

end AuthorComparer
